import Mathlib

/-!
# SaveWise — verification of the transaction resolution and ledger-mutation engine

Shallow embedding of the SaveWise server (`src/server/server.ts`, the Mongoose
models) and of the client-side valuation aggregator (`src/client/src/App.tsx`).
JavaScript numbers are modelled as exact rationals (`ℚ`); MongoDB documents and
collections as Lean structures and lists; the Mongoose session transaction as a
staged-write list that is applied on commit and discarded on abort.
-/

namespace SaveWise

/-! ## String utilities

`String.prototype.trim` / `toLowerCase` / `replace(/[_\-\s]/g, "")` and
`String.prototype.includes`, modelled on `List Char`.  Lowercasing is modelled
on the ASCII range; no cased non-ASCII character occurs in the alias table, the
candidate names, or the pattern set of the source (Chinese characters are
caseless). -/

/-- The ECMAScript whitespace class `\s` (also the set stripped by `trim`). -/
def isJsWhitespace (c : Char) : Bool :=
  c = ' ' || c = '\t' || c = '\n' || c = '\r' ||
  c.toNat = 11 || c.toNat = 12 || c.toNat = 0xa0 || c.toNat = 0x1680 ||
  (0x2000 ≤ c.toNat && c.toNat ≤ 0x200a) ||
  c.toNat = 0x2028 || c.toNat = 0x2029 || c.toNat = 0x202f ||
  c.toNat = 0x205f || c.toNat = 0x3000 || c.toNat = 0xfeff

def trimLeftL (l : List Char) : List Char := l.dropWhile isJsWhitespace

def trimL (l : List Char) : List Char :=
  ((trimLeftL l).reverse.dropWhile isJsWhitespace).reverse

/-- `String.prototype.trim`. -/
def jsTrim (s : String) : String := String.mk (trimL s.data)

def lowerChar (c : Char) : Char :=
  if 65 ≤ c.toNat && c.toNat ≤ 90 then Char.ofNat (c.toNat + 32) else c

/-- `String.prototype.toLowerCase` (ASCII range; see module comment). -/
def jsLower (s : String) : String := String.mk (s.data.map lowerChar)

def isSeparatorChar (c : Char) : Bool := c = '_' || c = '-' || isJsWhitespace c

/-- `normalizeToken` from `server.ts`:
`v.trim().toLowerCase().replace(/[_\-\s]/g, "")`. -/
def normalizeTokenL (l : List Char) : List Char :=
  ((trimL l).map lowerChar).filter (fun c => !isSeparatorChar c)

def normalizeToken (s : String) : String := String.mk (normalizeTokenL s.data)

/-- `hay.includes(sub)`: contiguous-substring test. -/
def containsSubL : List Char → List Char → Bool
  | [], sub => sub.isEmpty
  | c :: t, sub => sub.isPrefixOf (c :: t) || containsSubL t sub

/-- ECMAScript line terminators (not matched by `.` in a regex). -/
def isLineTerm (c : Char) : Bool :=
  c = '\n' || c = '\r' || c.toNat = 0x2028 || c.toNat = 0x2029

/-- Does `l` start with `g ++ b` for some `g` free of line terminators?
Used for the `.*B` part of a `A.*B` regex alternative. -/
def gapThenL : List Char → List Char → Bool
  | [], b => b.isPrefixOf ([] : List Char)
  | c :: t, b => b.isPrefixOf (c :: t) || (!isLineTerm c && gapThenL t b)

/-- `new RegExp("A.*B").test l`: an occurrence of `A`, then `B`, with only
non-line-terminator characters in between. -/
def regexGapMatchL : List Char → List Char → List Char → Bool
  | [], a, b => a.isPrefixOf ([] : List Char) && gapThenL (([] : List Char).drop a.length) b
  | c :: t, a, b =>
    (a.isPrefixOf (c :: t) && gapThenL ((c :: t).drop a.length) b) || regexGapMatchL t a b

/-! ## Name Resolver (`server.ts`, `NAME_ALIASES` / `resolveAccountNameFromList`) -/

/-- The four reserved canonical names (`CORE_ACCOUNT_NAMES` in the Account model). -/
def CORE_WeChat : String := "WeChat"
def CORE_Cash : String := "Cash"
def CORE_CreditCard : String := "CreditCard"
def CORE_DebitCard : String := "DebitCard"

/-- The fixed alias table `NAME_ALIASES` (association list; key order as in the source). -/
def NAME_ALIASES : List (String × String) :=
  [("wechat", CORE_WeChat), ("weixin", CORE_WeChat), ("wx", CORE_WeChat),
   ("微信", CORE_WeChat),
   ("cash", CORE_Cash), ("xianjin", CORE_Cash), ("现金", CORE_Cash),
   ("creditcard", CORE_CreditCard), ("credit_card", CORE_CreditCard),
   ("credit card", CORE_CreditCard), ("信用卡", CORE_CreditCard),
   ("debitcard", CORE_DebitCard), ("debit_card", CORE_DebitCard),
   ("debit card", CORE_DebitCard), ("debit", CORE_DebitCard),
   ("借记卡", CORE_DebitCard)]

/-- `NAME_ALIASES[k]` (plain-object own-property lookup). -/
def aliasLookup (k : String) : Option String :=
  (NAME_ALIASES.find? (fun e => e.1 == k)).map (·.2)

/-- `resolveAccountNameFromList(raw, accountNames)`.  `raw : Option String`
models the `string | null | undefined` parameter; an empty string is falsy and
is rejected by the `if (!raw)` guard exactly as `null`/`undefined` are. -/
def resolveAccountNameFromList (raw : Option String) (accountNames : List String) :
    Option String :=
  match raw with
  | none => none
  | some r =>
    if r = "" then none
    else
      let cleaned := jsTrim r
      if cleaned = "" then none
      else
        match aliasLookup (jsLower cleaned) with
        | some a => some a
        | none =>
          let normalized := normalizeTokenL cleaned.data
          match accountNames.find? (fun n => normalizeTokenL n.data == normalized) with
          | some m => some m
          | none =>
            accountNames.find? (fun n =>
              let nn := normalizeTokenL n.data
              containsSubL normalized nn || containsSubL nn normalized)

/-! ## Repayment Override Rule (`server.ts`, POST /api/record lines 310–319) -/

/-- The transaction kinds of the `Transaction` model (`TransactionType`). -/
inductive TransactionType
  | expense
  | income
  | transfer
deriving DecidableEq, Repr

/-- The classifier output contract (`ParsedTransactionPayload` in `server.ts`).
`note` is `Option String` because the handler guards it with `?? undefined`;
`date` keeps the raw string (an empty string is falsy at the insert site). -/
structure ParsedTransactionPayload where
  amount : ℚ
  type : TransactionType
  category : String
  account : String
  target_account : Option String
  date : String
  note : Option String
deriving DecidableEq, Repr

/-- `repayCreditCardPattern.test(text)` for
`/还.*信用卡|信用卡.*还款|偿还.*信用卡|还款给.*卡/`. -/
def repayCreditCardPatternTest (text : String) : Bool :=
  let l := text.data
  regexGapMatchL l "还".data "信用卡".data ||
  regexGapMatchL l "信用卡".data "还款".data ||
  regexGapMatchL l "偿还".data "信用卡".data ||
  regexGapMatchL l "还款给".data "卡".data

/-- The override block: on a pattern hit force `type = transfer`,
`target_account = "credit_card"`, and rewrite the source to `"debit_card"`
when the classifier's source resolves to the CreditCard account. -/
def applyRepayOverride (text : String) (accountNames : List String)
    (parsed : ParsedTransactionPayload) : ParsedTransactionPayload :=
  if repayCreditCardPatternTest text then
    let p := { parsed with type := TransactionType.transfer,
                           target_account := some "credit_card" }
    if resolveAccountNameFromList (some p.account) accountNames = some CORE_CreditCard then
      { p with account := "debit_card" }
    else p
  else parsed

/-! ## Data model (`db.ts` Account schema, `Transaction` model) and store -/

inductive AccountType
  | asset
  | liability
deriving DecidableEq, Repr

inductive AccountCurrency
  | CAD
  | CNY
deriving DecidableEq, Repr

/-- An `Account` document.  `(userId, name)` is the per-user identity; the
store below holds one user's accounts, so `name` alone identifies a document.
`dueDate` keeps the raw JS number. -/
structure Account where
  name : String
  type : AccountType
  balance : ℚ
  currency : AccountCurrency
  displayCurrency : AccountCurrency
  dueDate : Option ℚ
deriving DecidableEq, Repr

/-- A persisted `Transaction` document. `account` holds the source account's
name (standing for the `_id` reference); `date` is `none` when the parsed date
was falsy and the server clock was used. -/
structure TransactionRecord where
  amount : ℚ
  type : TransactionType
  category : String
  account : String
  date : Option String
  note : Option String
deriving DecidableEq, Repr

/-- One user's slice of the database. -/
structure Store where
  accounts : List Account
  transactions : List TransactionRecord
deriving DecidableEq, Repr

/-- `Account.findOne({ userId, name })`. -/
def findAccount (s : Store) (n : String) : Option Account :=
  s.accounts.find? (fun a => a.name == n)

def balanceOf (s : Store) (n : String) : Option ℚ :=
  (findAccount s n).map (·.balance)

/-- A `save` of a modified document: replace the document with this name. -/
def updateAccountList (l : List Account) (a : Account) : List Account :=
  l.map (fun x => if x.name == a.name then a else x)

/-! ## Ledger Mutator (`server.ts`, POST /api/record lines 352–407)

The Mongoose session is modelled as a list of staged writes: every write in
the `try` block is staged against the session; `commitTransaction` applies
them to the store in order, `abortTransaction` (the `catch` branch) discards
them, leaving the store untouched. -/

inductive DbWrite
  | saveAccount (a : Account)
  | insertTransaction (t : TransactionRecord)
deriving DecidableEq, Repr

def applyWrite (s : Store) : DbWrite → Store
  | .saveAccount a => { s with accounts := updateAccountList s.accounts a }
  | .insertTransaction t => { s with transactions := s.transactions ++ [t] }

def commitSession (s : Store) (ws : List DbWrite) : Store := ws.foldl applyWrite s

/-- Which storage-layer operation of the atomic block throws, if any
(a `PersistenceError` oracle; the insert can also throw on its own from the
`Transaction` schema validation). -/
inductive FailPoint
  | noFailure
  | atSaveSource
  | atSaveTarget
  | atInsertTransaction
deriving DecidableEq, Repr

/-- The balance-mutation rules (the comment block and `if` chain at lines
358–381): expense/income flip sign on a liability source; a transfer's source
always decreases and its target decreases exactly when it is a liability. -/
def ledgerMutate (t : TransactionType) (amount : ℚ) (src : Account)
    (tgt : Option Account) : Account × Option Account :=
  match t with
  | .expense =>
    ({ src with balance := if src.type = .asset then src.balance - amount
                           else src.balance + amount }, tgt)
  | .income =>
    ({ src with balance := if src.type = .asset then src.balance + amount
                           else src.balance - amount }, tgt)
  | .transfer =>
    match tgt with
    | some tg =>
      ({ src with balance := src.balance - amount },
       some (if tg.type = .liability then { tg with balance := tg.balance - amount }
             else { tg with balance := tg.balance + amount }))
    | none => (src, tgt)

/-- `Transaction.create([...], { session })` payload (line 386). -/
def mkTransactionRecord (parsed : ParsedTransactionPayload) (src : Account) :
    TransactionRecord :=
  { amount := parsed.amount, type := parsed.type, category := parsed.category,
    account := src.name,
    date := if parsed.date = "" then none else some parsed.date,
    note := parsed.note }

inductive RecordOutcome
  | badRequest (msg : String)
  | created
  | serverError
deriving DecidableEq, Repr

/-- The atomic block (lines 352–407): mutate the loaded documents, stage the
one or two account saves and the transaction insert on the session, then
commit; any thrown error (the oracle, or the `amount ≥ 0` schema validation at
the insert) reaches the `catch`, which aborts the session — the store is
returned unchanged and the request fails with the 500 handler. -/
def recordAtomic (failAt : FailPoint) (parsed : ParsedTransactionPayload)
    (src : Account) (tgt : Option Account) (s : Store) : RecordOutcome × Store :=
  let mutated := ledgerMutate parsed.type parsed.amount src tgt
  if failAt = .atSaveSource then (.serverError, s)
  else
    let staged1 : List DbWrite := [.saveAccount mutated.1]
    if failAt = .atSaveTarget ∧ mutated.2.isSome then (.serverError, s)
    else
      let staged2 : List DbWrite :=
        match mutated.2 with
        | some tg => staged1 ++ [.saveAccount tg]
        | none => staged1
      if failAt = .atInsertTransaction ∨ parsed.amount < 0 then (.serverError, s)
      else
        (.created,
         commitSession s (staged2 ++ [.insertTransaction (mkTransactionRecord parsed src)]))

/-- POST /api/record after the classifier call (lines 310–407): repayment
override, source resolution, transfer-target checks, then the atomic block.
The classifier itself is an external collaborator; `parsed0` is its (or the
mock fallback's) output. -/
def recordApply (failAt : FailPoint) (text : String)
    (parsed0 : ParsedTransactionPayload) (s : Store) : RecordOutcome × Store :=
  let accountNames := s.accounts.map (·.name)
  let parsed := applyRepayOverride text accountNames parsed0
  match resolveAccountNameFromList (some parsed.account) accountNames with
  | none => (.badRequest ("无法识别账户: " ++ parsed.account), s)
  | some normalizedSource =>
    match findAccount s normalizedSource with
    | none => (.badRequest ("未找到账户: " ++ normalizedSource), s)
    | some sourceAccount =>
      let targetResult : Except String (Option Account) :=
        if parsed.type = .transfer then
          match parsed.target_account with
          | none => .error "转账必须包含目标账户 target_account"
          | some t =>
            if t = "" then .error "转账必须包含目标账户 target_account"
            else
              match resolveAccountNameFromList (some t) accountNames with
              | none => .error ("无法识别目标账户: " ++ t)
              | some nt =>
                match findAccount s nt with
                | none => .error ("未找到目标账户: " ++ nt)
                | some tg => .ok (some tg)
        else .ok none
      match targetResult with
      | .error msg => (.badRequest msg, s)
      | .ok targetAccount => recordAtomic failAt parsed sourceAccount targetAccount s

/-! ## POST /api/accounts (`server.ts` lines 473–525) -/

/-- The request body of POST /api/accounts.  `currency`, `displayCurrency` and
`type` keep the raw strings the client sent (the handler compares them against
`"CNY"` / `"CAD"` literally); `type` is declared in the body type but never
read by the handler. -/
structure CreateAccountBody where
  name : Option String
  balance : Option ℚ
  dueDate : Option ℚ
  currency : Option String
  displayCurrency : Option String
  type : Option String
deriving DecidableEq, Repr

inductive CreateOutcome
  | badRequest
  | conflict
  | created (acc : Account)
deriving DecidableEq, Repr

/-- The creation handler: trims the name, rejects a falsy name (400) and a
duplicate (409), validates `dueDate ∈ [1, 31]`, defaults the currencies, and
creates the account with the hard-coded `type: "liability"`. -/
def createAccountHandler (body : CreateAccountBody) (s : Store) :
    CreateOutcome × Store :=
  match body.name with
  | none => (.badRequest, s)
  | some n0 =>
    let name := jsTrim n0
    if name = "" then (.badRequest, s)
    else if (findAccount s name).isSome then (.conflict, s)
    else
      let dueDate : Option ℚ :=
        match body.dueDate with
        | some d => if 1 ≤ d ∧ d ≤ 31 then some d else none
        | none => none
      let currency : AccountCurrency := if body.currency = some "CNY" then .CNY else .CAD
      let displayCurrency : AccountCurrency :=
        if body.displayCurrency = some "CAD" then .CAD
        else if body.displayCurrency = some "CNY" then .CNY
        else currency
      let account : Account :=
        { name := name, type := .liability,
          balance := match body.balance with | some b => b | none => 0,
          dueDate := dueDate, currency := currency, displayCurrency := displayCurrency }
      (.created account, { s with accounts := s.accounts ++ [account] })

/-! ## Valuation Aggregator (`App.tsx`, `convertAmount` / `totalBalance`) -/

/-- `convertAmount(amount, from, to, cadToCny)`. -/
def convertAmount (amount : ℚ) (src dst : AccountCurrency) (cadToCny : ℚ) : ℚ :=
  if src = dst then amount
  else if src = .CAD ∧ dst = .CNY then amount * cadToCny
  else amount / cadToCny

/-- The `totalBalance` memo: CAD-based sum (CNY balances divided back at the
live rate), each account signed by its type, the grand total multiplied by the
rate when the display currency is CNY.  A pure function of the account list
and the rate; it writes nothing. -/
def totalBalance (accountsFromApi : List Account) (totalCurrency : AccountCurrency)
    (cadToCnyRate : ℚ) : ℚ :=
  let totalCad := accountsFromApi.foldl
    (fun sum acc =>
      let nativeCadAmount :=
        if acc.currency = .CAD then acc.balance else acc.balance / cadToCnyRate
      sum + (if acc.type = .asset then nativeCadAmount else -nativeCadAmount)) 0
  if totalCurrency = .CAD then totalCad else totalCad * cadToCnyRate

/-! ## Definitions following the spec's words (refinement comparators only) -/

/-- Modelled from the spec: the strict three-step priority order of §4.1 as the
claim states it — (1) alias lookup of the trimmed, lowercased raw token,
(2) first exact match on normalized forms, (3) first fuzzy containment match —
with NotFound for an empty/absent raw name.  Used only to compare against
`resolveAccountNameFromList`. -/
def specResolvePriority (raw : Option String) (candidateNames : List String) :
    Option String :=
  match raw with
  | none => none
  | some r =>
    if jsTrim r = "" then none
    else
      let step1 := aliasLookup (jsLower (jsTrim r))
      let step2 := candidateNames.find?
        (fun n => normalizeTokenL n.data == normalizeTokenL r.data)
      let step3 := candidateNames.find?
        (fun n =>
          containsSubL (normalizeTokenL r.data) (normalizeTokenL n.data) ||
          containsSubL (normalizeTokenL n.data) (normalizeTokenL r.data))
      (step1.orElse (fun _ => step2)).orElse (fun _ => step3)

/-- Modelled from the spec: the English half of the bilingual repayment
trigger the spec and claim describe (spec §4.2: patterns meaning
"repaid/settled the credit card" in either supported language; the
classifier prompt's own English repayment examples are "credit card payment"
and "pay BMO card").  A text expresses English repayment intent here when it
contains both "pay" and "card". -/
def englishRepayIntent (text : String) : Bool :=
  containsSubL text.data "pay".data && containsSubL text.data "card".data

/-- Modelled from the spec: the claimed bilingual trigger — the Chinese
pattern set or the English repayment patterns. -/
def specBilingualRepayTrigger (text : String) : Bool :=
  repayCreditCardPatternTest text || englishRepayIntent text

/-! ## Helper lemmas -/

theorem dropWhile_dropWhile_eq (p : α → Bool) (l : List α) :
    (l.dropWhile p).dropWhile p = l.dropWhile p := by
  induction l with
  | nil => simp
  | cons c t ih =>
    by_cases h : p c
    · simp [List.dropWhile_cons, h, ih]
    · simp [List.dropWhile_cons, h]

theorem dropWhile_eq_self_of_prefix (p : α → Bool) {A B : List α}
    (hA : A.dropWhile p = A) (hpre : B <+: A) : B.dropWhile p = B := by
  cases B with
  | nil => simp
  | cons b t =>
    obtain ⟨r, hr⟩ := hpre
    by_cases hb : p b
    · exfalso
      rw [← hr] at hA
      simp only [List.cons_append] at hA
      simp only [List.dropWhile_cons, hb, if_true] at hA
      have := congrArg List.length hA
      have hlen : ((t ++ r).dropWhile p).length ≤ (t ++ r).length :=
        (List.dropWhile_sublist p).length_le
      rw [List.length_append] at hlen
      simp at this
      omega
    · simp [List.dropWhile_cons, hb]

theorem trimL_idem (l : List Char) : trimL (trimL l) = trimL l := by
  unfold trimL trimLeftL
  set p := isJsWhitespace with hp
  set A := l.dropWhile p with hA
  have hAdrop : A.dropWhile p = A := dropWhile_dropWhile_eq p l
  set D := A.reverse.dropWhile p with hD
  have hDdrop : D.dropWhile p = D := dropWhile_dropWhile_eq p A.reverse
  have hBpre : D.reverse <+: A := by
    refine ⟨(A.reverse.takeWhile p).reverse, ?_⟩
    have htd : A.reverse.takeWhile p ++ A.reverse.dropWhile p = A.reverse := by
      rw [List.takeWhile_append_dropWhile]
    calc D.reverse ++ (A.reverse.takeWhile p).reverse
        = (A.reverse.takeWhile p ++ D).reverse := by rw [List.reverse_append]
      _ = A := by rw [hD, htd, List.reverse_reverse]
  have h1 : D.reverse.dropWhile p = D.reverse :=
    dropWhile_eq_self_of_prefix p hAdrop hBpre
  rw [h1, List.reverse_reverse, hDdrop]

theorem normalizeTokenL_trimL (l : List Char) :
    normalizeTokenL (trimL l) = normalizeTokenL l := by
  unfold normalizeTokenL
  rw [trimL_idem]

theorem normalizeTokenL_jsTrim (s : String) :
    normalizeTokenL (jsTrim s).data = normalizeTokenL s.data :=
  normalizeTokenL_trimL s.data

theorem find?_cons_eq (p : α → Bool) (a : α) (l : List α) :
    (a :: l).find? p = if p a then some a else l.find? p := by
  by_cases h : p a = true
  · rw [List.find?_cons_of_pos l h, if_pos h]
  · rw [List.find?_cons_of_neg l (by simpa using h), if_neg h]

/-- First-match transfer: when every `q`-positive element is `p`-positive and
the first `p`-positive element is `q`-positive, the two searches agree. -/
theorem find?_first_transfer (p q : α → Bool) (l : List α) (c : α)
    (hf : l.find? p = some c) (hqc : q c = true)
    (himp : ∀ a, q a = true → p a = true) : l.find? q = some c := by
  induction l with
  | nil => simp at hf
  | cons x t ih =>
    rw [find?_cons_eq p x t] at hf
    rw [find?_cons_eq q x t]
    by_cases hq : q x = true
    · have hp := himp x hq
      rw [if_pos hp] at hf
      rw [if_pos hq]
      exact hf
    · rw [if_neg hq]
      by_cases hp : p x = true
      · rw [if_pos hp] at hf
        obtain rfl : x = c := by injection hf
        exact absurd hqc hq
      · rw [if_neg hp] at hf
        exact ih hf

theorem find?_update_self (l : List Account) (a : Account)
    (h : (l.find? (fun x => x.name == a.name)).isSome) :
    (updateAccountList l a).find? (fun x => x.name == a.name) = some a := by
  induction l with
  | nil => simp [List.find?] at h
  | cons x t ih =>
    rw [find?_cons_eq (fun x => x.name == a.name) x t] at h
    unfold updateAccountList at ih ⊢
    rw [List.map_cons]
    by_cases hx : (x.name == a.name) = true
    · rw [if_pos hx, find?_cons_eq (fun x => x.name == a.name) a _, if_pos (by simp)]
    · rw [if_neg hx, find?_cons_eq (fun x => x.name == a.name) x _, if_neg hx]
      rw [if_neg hx] at h
      exact ih h

theorem find?_update_other (l : List Account) (a : Account) (n : String)
    (hne : n ≠ a.name) :
    (updateAccountList l a).find? (fun x => x.name == n) =
      l.find? (fun x => x.name == n) := by
  induction l with
  | nil => simp [updateAccountList]
  | cons x t ih =>
    unfold updateAccountList at ih ⊢
    rw [List.map_cons,
      find?_cons_eq (fun x => x.name == n) x t]
    by_cases hx : (x.name == a.name) = true
    · have hxa : x.name = a.name := by simpa using hx
      have hanne : a.name ≠ n := fun he => hne he.symm
      have hxn : (x.name == n) = false := by simp [hxa, hanne]
      have han : (a.name == n) = false := by simp [hanne]
      rw [if_pos hx, find?_cons_eq (fun x => x.name == n) a _, if_neg (by simp [han]),
        if_neg (by simp [hxn])]
      exact ih
    · rw [if_neg hx, find?_cons_eq (fun x => x.name == n) x _]
      by_cases hxn : (x.name == n) = true
      · rw [if_pos hxn, if_pos hxn]
      · rw [if_neg hxn, if_neg hxn]
        exact ih

theorem mem_update_other (l : List Account) (a x : Account)
    (hx : x ∈ l) (hne : x.name ≠ a.name) : x ∈ updateAccountList l a := by
  unfold updateAccountList
  have := List.mem_map_of_mem (fun y => if y.name == a.name then a else y) hx
  simpa [hne] using this

theorem mem_of_containsSubL {hay sub : List Char}
    (h : containsSubL hay sub = true) : ∀ c ∈ sub, c ∈ hay := by
  induction hay with
  | nil =>
    unfold containsSubL at h
    rw [List.isEmpty_iff] at h
    subst h
    intro c hc
    cases hc
  | cons x t ih =>
    unfold containsSubL at h
    rw [Bool.or_eq_true] at h
    intro c hc
    rcases h with hpre | htail
    · exact (List.isPrefixOf_iff_prefix.mp hpre).subset hc
    · exact List.mem_cons_of_mem _ (ih htail c hc)

theorem mem_of_regexGapMatchL {l a b : List Char}
    (h : regexGapMatchL l a b = true) : ∀ c ∈ a, c ∈ l := by
  induction l with
  | nil =>
    unfold regexGapMatchL at h
    rw [Bool.and_eq_true] at h
    intro c hc
    have := (List.isPrefixOf_iff_prefix.mp h.1).subset hc
    cases this
  | cons x t ih =>
    unfold regexGapMatchL at h
    rw [Bool.or_eq_true] at h
    intro c hc
    rcases h with hhere | htail
    · rw [Bool.and_eq_true] at hhere
      exact (List.isPrefixOf_iff_prefix.mp hhere.1).subset hc
    · exact List.mem_cons_of_mem _ (ih htail c hc)

/-- Characterization of the resolver on a non-empty, non-blank raw string, as
an `orElse` chain over the three steps, with the raw token normalized directly
(the trim inside `normalizeToken` makes the outer trim redundant). -/
theorem resolve_eq (r : String) (names : List String) (hr : r ≠ "")
    (ht : jsTrim r ≠ "") :
    resolveAccountNameFromList (some r) names =
      ((aliasLookup (jsLower (jsTrim r))).orElse (fun _ =>
        (names.find? (fun n => normalizeTokenL n.data == normalizeTokenL r.data)).orElse
          (fun _ =>
            names.find? (fun n =>
              containsSubL (normalizeTokenL r.data) (normalizeTokenL n.data) ||
              containsSubL (normalizeTokenL n.data) (normalizeTokenL r.data))))) := by
  simp only [resolveAccountNameFromList]
  rw [if_neg hr, if_neg ht]
  simp only [normalizeTokenL_jsTrim]
  cases hA : aliasLookup (jsLower (jsTrim r)) with
  | some a => simp [Option.orElse]
  | none =>
    cases hF : names.find? (fun n => normalizeTokenL n.data == normalizeTokenL r.data) with
    | some m => simp [Option.orElse]
    | none => simp [Option.orElse]

/-- Inversion: how a successful resolution can arise. -/
theorem resolve_some_cases (raw : Option String) (names : List String) (c : String)
    (h : resolveAccountNameFromList raw names = some c) :
    (∃ r, raw = some r ∧ aliasLookup (jsLower (jsTrim r)) = some c) ∨
    (∃ r, raw = some r ∧
      names.find? (fun n => normalizeTokenL n.data == normalizeTokenL r.data) = some c) ∨
    (∃ r, raw = some r ∧
      names.find? (fun n =>
        containsSubL (normalizeTokenL r.data) (normalizeTokenL n.data) ||
        containsSubL (normalizeTokenL n.data) (normalizeTokenL r.data)) = some c) := by
  cases raw with
  | none => simp [resolveAccountNameFromList] at h
  | some r =>
    by_cases hr : r = ""
    · subst hr
      simp [resolveAccountNameFromList] at h
    · by_cases ht : jsTrim r = ""
      · simp only [resolveAccountNameFromList] at h
        rw [if_neg hr, if_pos ht] at h
        exact absurd h (by simp)
      · rw [resolve_eq r names hr ht] at h
        cases hA : aliasLookup (jsLower (jsTrim r)) with
        | some a =>
          rw [hA] at h
          simp only [Option.orElse] at h
          left
          exact ⟨r, rfl, by rw [hA, h]⟩
        | none =>
          rw [hA] at h
          cases hF : names.find?
              (fun n => normalizeTokenL n.data == normalizeTokenL r.data) with
          | some m =>
            rw [hF] at h
            simp only [Option.orElse] at h
            right; left
            exact ⟨r, rfl, by rw [hF, h]⟩
          | none =>
            rw [hF] at h
            simp only [Option.orElse] at h
            right; right
            exact ⟨r, rfl, h⟩

/-- Every alias value is one of the four core canonical names. -/
theorem aliasLookup_val_cases (k v : String) (h : aliasLookup k = some v) :
    v = CORE_WeChat ∨ v = CORE_Cash ∨ v = CORE_CreditCard ∨ v = CORE_DebitCard := by
  unfold aliasLookup at h
  cases hf : NAME_ALIASES.find? (fun e => e.1 == k) with
  | none => rw [hf] at h; simp at h
  | some e =>
    rw [hf] at h
    simp only [Option.map] at h
    have he := List.mem_of_find?_eq_some hf
    have hall : ∀ x ∈ NAME_ALIASES,
        x.2 = CORE_WeChat ∨ x.2 = CORE_Cash ∨ x.2 = CORE_CreditCard ∨
          x.2 = CORE_DebitCard := by decide
    have hv : e.2 = v := by injection h
    rw [← hv]
    exact hall e he

/-- The four core canonical names are fixed points of the alias step. -/
theorem aliasLookup_core_fixed (v : String)
    (h : v = CORE_WeChat ∨ v = CORE_Cash ∨ v = CORE_CreditCard ∨ v = CORE_DebitCard) :
    aliasLookup (jsLower (jsTrim v)) = some v := by
  rcases h with rfl | rfl | rfl | rfl <;> decide

/-- The committed account writes of a successful atomic block. -/
def stagedAccounts (m : Account × Option Account) (l : List Account) : List Account :=
  match m.2 with
  | some tg => updateAccountList (updateAccountList l m.1) tg
  | none => updateAccountList l m.1

/-- The atomic block either aborts with the store untouched, or commits the
staged account writes together with exactly one inserted record. -/
theorem recordAtomic_characterization (failAt : FailPoint)
    (parsed : ParsedTransactionPayload) (src : Account) (tgt : Option Account)
    (s : Store) :
    recordAtomic failAt parsed src tgt s =
      if failAt = FailPoint.atSaveSource ∨
         (failAt = FailPoint.atSaveTarget ∧
           (ledgerMutate parsed.type parsed.amount src tgt).2.isSome = true) ∨
         failAt = FailPoint.atInsertTransaction ∨ parsed.amount < 0
      then (RecordOutcome.serverError, s)
      else (RecordOutcome.created,
        { accounts :=
            stagedAccounts (ledgerMutate parsed.type parsed.amount src tgt) s.accounts,
          transactions := s.transactions ++ [mkTransactionRecord parsed src] }) := by
  simp only [recordAtomic]
  by_cases h1 : failAt = FailPoint.atSaveSource
  · rw [if_pos h1, if_pos (Or.inl h1)]
  · rw [if_neg h1]
    by_cases h2 : failAt = FailPoint.atSaveTarget ∧
        (ledgerMutate parsed.type parsed.amount src tgt).2.isSome = true
    · rw [if_pos h2, if_pos (Or.inr (Or.inl h2))]
    · rw [if_neg h2]
      by_cases h3 : failAt = FailPoint.atInsertTransaction ∨ parsed.amount < 0
      · rw [if_pos h3, if_pos (Or.inr (Or.inr h3))]
      · rw [if_neg h3, if_neg ?hcond]
        case hcond =>
          rintro (hh | hh | hh | hh)
          · exact h1 hh
          · exact h2 hh
          · exact h3 (Or.inl hh)
          · exact h3 (Or.inr hh)
        cases hm : (ledgerMutate parsed.type parsed.amount src tgt).2 with
        | none =>
          simp [commitSession, applyWrite, stagedAccounts, hm, List.foldl_cons,
            List.foldl_nil]
        | some tg =>
          simp [commitSession, applyWrite, stagedAccounts, hm, List.foldl_cons,
            List.foldl_nil]

theorem foldl_add_mul (f : Account → ℚ) (l : List Account) (r init : ℚ) :
    (l.foldl (fun sum x => sum + f x) init) * r =
      l.foldl (fun sum x => sum + f x * r) (init * r) := by
  induction l generalizing init with
  | nil => rfl
  | cons x t ih =>
    simp only [List.foldl_cons]
    rw [ih, add_mul]

theorem foldl_congr_fn (f g : ℚ → Account → ℚ) (l : List Account) (init : ℚ)
    (h : ∀ sum x, f sum x = g sum x) : l.foldl f init = l.foldl g init := by
  have hfg : f = g := funext (fun sum => funext (h sum))
  rw [hfg]

/-- ASCII-only text can never trigger the repayment pattern: each regex
alternative requires a Chinese character. -/
theorem ascii_no_repay_trigger (text : String)
    (h : ∀ c ∈ text.data, c.toNat < 128) :
    repayCreditCardPatternTest text = false := by
  rw [Bool.eq_false_iff]
  intro htrue
  unfold repayCreditCardPatternTest at htrue
  simp only [Bool.or_eq_true] at htrue
  rcases htrue with ((h1 | h2) | h3) | h4
  · exact absurd (h _ (mem_of_regexGapMatchL h1 '还' (by decide))) (by decide)
  · exact absurd (h _ (mem_of_regexGapMatchL h2 '信' (by decide))) (by decide)
  · exact absurd (h _ (mem_of_regexGapMatchL h3 '偿' (by decide))) (by decide)
  · exact absurd (h _ (mem_of_regexGapMatchL h4 '还' (by decide))) (by decide)

/-! ## Concrete fixtures used by witnesses and counterexamples -/

def cashAcct : Account :=
  ⟨"Cash", AccountType.asset, 100, AccountCurrency.CAD, AccountCurrency.CAD, none⟩

def debitAcct : Account :=
  ⟨"DebitCard", AccountType.asset, 300, AccountCurrency.CAD, AccountCurrency.CAD, none⟩

def creditAcct : Account :=
  ⟨"CreditCard", AccountType.liability, 200, AccountCurrency.CAD, AccountCurrency.CAD,
   some 15⟩

def wechatAcct : Account :=
  ⟨"WeChat", AccountType.asset, 40, AccountCurrency.CNY, AccountCurrency.CNY, none⟩

def demoStore : Store := ⟨[cashAcct, debitAcct, creditAcct], []⟩

/-! ## The claims -/

/-- C5: the Name Resolver follows the strict priority order — (1) exact lookup
of the trimmed, lowercased raw token in the fixed alias table; (2) exact match
after normalization (lowercase, trim, strip separators) against every candidate
normalized the same way; (3) fuzzy containment with the first candidate in
directory order winning — and returns NotFound when the raw name is
empty/absent or no step succeeds. -/
theorem C5_resolver_priority_order :
    ∀ (raw : Option String) (candidateNames : List String),
      resolveAccountNameFromList raw candidateNames =
        specResolvePriority raw candidateNames := by
  intro raw names
  cases raw with
  | none => rfl
  | some r =>
    by_cases hr : r = ""
    · subst hr
      rfl
    · by_cases ht : jsTrim r = ""
      · simp only [resolveAccountNameFromList, specResolvePriority]
        rw [if_neg hr, if_pos ht, if_pos ht]
      · rw [resolve_eq r names hr ht]
        simp only [specResolvePriority]
        rw [if_neg ht]
        cases aliasLookup (jsLower (jsTrim r)) with
        | some a => simp [Option.orElse]
        | none =>
          cases names.find? (fun n => normalizeTokenL n.data == normalizeTokenL r.data) with
          | some m => simp [Option.orElse]
          | none => simp [Option.orElse]

/-- C6 counterexample: the alias step returns the canonical name without
checking membership in the candidate set — resolving "wechat" against the
single candidate "Cash" yields "WeChat", which is not a candidate. -/
theorem C6_counterexample_alias_escapes_candidates :
    resolveAccountNameFromList (some "wechat") ["Cash"] = some "WeChat" ∧
      "WeChat" ∉ ["Cash"] := by decide

/-- C6 (amended): the resolver returns NotFound, a member of the candidate
set, or one of the four core canonical names from the alias table — the alias
step may return a core name that is not in the candidate set. -/
theorem C6_resolver_range_amended :
    ∀ (raw : Option String) (names : List String) (c : String),
      resolveAccountNameFromList raw names = some c →
      c ∈ names ∨ c ∈ [CORE_WeChat, CORE_Cash, CORE_CreditCard, CORE_DebitCard] := by
  intro raw names c h
  rcases resolve_some_cases raw names c h with ⟨r, _, hA⟩ | ⟨r, _, hF⟩ | ⟨r, _, hF⟩
  · right
    rcases aliasLookup_val_cases _ _ hA with rfl | rfl | rfl | rfl <;> simp
  · exact Or.inl (List.mem_of_find?_eq_some hF)
  · exact Or.inl (List.mem_of_find?_eq_some hF)

/-- C6 witness: the amended range property at the concrete counterexample
input — "wechat" against ["Cash"] lands in the core-name component. -/
theorem C6_witness :
    "WeChat" ∈ ["Cash"] ∨
      "WeChat" ∈ [CORE_WeChat, CORE_Cash, CORE_CreditCard, CORE_DebitCard] :=
  C6_resolver_range_amended (some "wechat") ["Cash"] "WeChat" (by decide)

/-- C7 counterexample: resolution is not idempotent — "credit  card" (double
space) resolves to the user candidate "Credit Card" via normalization, but
resolving "Credit Card" again hits the alias key "credit card" and returns the
core name "CreditCard" instead of itself. -/
theorem C7_counterexample_not_idempotent :
    resolveAccountNameFromList (some "credit  card") ["Credit Card"] =
        some "Credit Card" ∧
      resolveAccountNameFromList (some "Credit Card") ["Credit Card"] =
        some "CreditCard" ∧
      ("CreditCard" : String) ≠ "Credit Card" := by decide

/-- C7 (amended): the resolver is idempotent on every output whose trimmed,
lowercased form is not hijacked by the alias table — when the returned name
`c` is non-blank and the alias step on `c` either misses or returns `c`
itself, resolving `c` again returns `c`. -/
theorem C7_resolver_idempotent_amended (raw : Option String) (names : List String)
    (c : String) (h : resolveAccountNameFromList raw names = some c)
    (halias : aliasLookup (jsLower (jsTrim c)) = none ∨
      aliasLookup (jsLower (jsTrim c)) = some c)
    (hne : jsTrim c ≠ "") :
    resolveAccountNameFromList (some c) names = some c := by
  have hc : c ≠ "" := by
    intro he
    apply hne
    rw [he]
    rfl
  rcases halias with hA | hA
  · rw [resolve_eq c names hc hne, hA]
    simp only [Option.orElse]
    rcases resolve_some_cases raw names c h with ⟨r, _, hAr⟩ | ⟨r, _, hF⟩ | ⟨r, _, hF⟩
    · exfalso
      have hfix := aliasLookup_core_fixed c (aliasLookup_val_cases _ _ hAr)
      rw [hA] at hfix
      exact Option.noConfusion hfix
    · have hpc : (normalizeTokenL c.data == normalizeTokenL r.data) = true := by
        have hf2 := List.find?_some hF
        simpa using hf2
      have hfind : names.find?
          (fun n => normalizeTokenL n.data == normalizeTokenL c.data) = some c := by
        apply find?_first_transfer _ _ _ _ hF (by simp)
        intro a ha
        have h1 : normalizeTokenL a.data = normalizeTokenL c.data := by simpa using ha
        simpa [h1] using hpc
      rw [hfind]
    · have hpc := List.find?_some hF
      have hfind : names.find?
          (fun n => normalizeTokenL n.data == normalizeTokenL c.data) = some c := by
        apply find?_first_transfer _ _ _ _ hF (by simp)
        intro a ha
        have h1 : normalizeTokenL a.data = normalizeTokenL c.data := by simpa using ha
        simpa [h1] using hpc
      rw [hfind]
  · rw [resolve_eq c names hc hne, hA]
    rfl

/-- C7 witness: a user candidate name away from the alias table round-trips —
"bmo" resolves to "BMO", and "BMO" resolves to itself. -/
theorem C7_witness :
    resolveAccountNameFromList (some "BMO") ["BMO"] = some "BMO" :=
  C7_resolver_idempotent_amended (some "bmo") ["BMO"] "BMO" (by decide)
    (Or.inl (by decide)) (by decide)

/-- C3 counterexample: the trigger is not bilingual. "credit card payment" is
an English repayment phrase — one the classifier prompt itself lists as
repayment intent, and it matches the spec-modelled English half of the claimed
bilingual pattern set — yet the code's trigger does not fire on it. -/
theorem C3_counterexample_english_repayment :
    specBilingualRepayTrigger "credit card payment" = true ∧
      repayCreditCardPatternTest "credit card payment" = false := by decide

/-- C3 (amended): the Repayment Override Rule fires exactly when the raw text
matches one of the four fixed Chinese repayment patterns (还…信用卡, 信用卡…还款,
偿还…信用卡, 还款给…卡) and never on ASCII-only (in particular English-only)
text; when it fires it forces `type = transfer` and
`target_account = "credit_card"`, rewrites the source to `"debit_card"`
exactly when the classifier's source resolves to the CreditCard account, and
leaves every other field unchanged; the trigger depends only on the raw
text. -/
theorem C3_repay_override_amended (text : String) (names : List String)
    (p : ParsedTransactionPayload) :
    (repayCreditCardPatternTest text = false → applyRepayOverride text names p = p) ∧
    (repayCreditCardPatternTest text = true →
      (applyRepayOverride text names p).type = TransactionType.transfer ∧
      (applyRepayOverride text names p).target_account = some "credit_card" ∧
      (applyRepayOverride text names p).account =
        (if resolveAccountNameFromList (some p.account) names = some CORE_CreditCard
         then "debit_card" else p.account) ∧
      (applyRepayOverride text names p).amount = p.amount ∧
      (applyRepayOverride text names p).category = p.category ∧
      (applyRepayOverride text names p).date = p.date ∧
      (applyRepayOverride text names p).note = p.note) ∧
    ((∀ ch ∈ text.data, ch.toNat < 128) → repayCreditCardPatternTest text = false) := by
  refine ⟨?_, ?_, ascii_no_repay_trigger text⟩
  · intro h
    simp [applyRepayOverride, h]
  · intro h
    by_cases hres :
        resolveAccountNameFromList (some p.account) names = some CORE_CreditCard
    · simp [applyRepayOverride, h, hres]
    · simp [applyRepayOverride, h, hres]

/-- C3 witness: the amended rule at concrete inputs — a Chinese repayment
sentence with a credit-card source is overridden to a transfer, and an
unrelated sentence is passed through unchanged. -/
theorem C3_witness :
    (applyRepayOverride "用借记卡还了信用卡" ["CreditCard", "DebitCard"]
        ⟨600, TransactionType.expense, "repayment", "credit_card", none,
         "2026-02-26", none⟩).type = TransactionType.transfer ∧
    applyRepayOverride "hello" ["CreditCard"]
        ⟨5, TransactionType.expense, "food", "cash", none, "2026-02-26", none⟩ =
      ⟨5, TransactionType.expense, "food", "cash", none, "2026-02-26", none⟩ :=
  ⟨((C3_repay_override_amended "用借记卡还了信用卡" ["CreditCard", "DebitCard"]
      ⟨600, TransactionType.expense, "repayment", "credit_card", none,
       "2026-02-26", none⟩).2.1 (by decide)).1,
   (C3_repay_override_amended "hello" ["CreditCard"]
      ⟨5, TransactionType.expense, "food", "cash", none, "2026-02-26", none⟩).1
     (by decide)⟩

/-- C2: the ledger mutation is atomic — the atomic block either commits the
one or two staged account writes together with exactly one inserted
transaction record, or (on any failure, in particular an insert failure after
both balances were staged) aborts with the store exactly as before: every
balance unchanged and no record persisted. -/
theorem C2_atomicity (failAt : FailPoint) (parsed : ParsedTransactionPayload)
    (src : Account) (tgt : Option Account) (s : Store) :
    ((recordAtomic failAt parsed src tgt s).1 = RecordOutcome.created ∨
      (recordAtomic failAt parsed src tgt s).1 = RecordOutcome.serverError) ∧
    ((recordAtomic failAt parsed src tgt s).1 = RecordOutcome.serverError →
      (recordAtomic failAt parsed src tgt s).2 = s) ∧
    ((recordAtomic failAt parsed src tgt s).1 = RecordOutcome.created →
      (recordAtomic failAt parsed src tgt s).2.accounts =
        stagedAccounts (ledgerMutate parsed.type parsed.amount src tgt) s.accounts ∧
      (recordAtomic failAt parsed src tgt s).2.transactions =
        s.transactions ++ [mkTransactionRecord parsed src]) := by
  rw [recordAtomic_characterization]
  split_ifs with h
  · exact ⟨Or.inr rfl, fun _ => rfl, fun hc => by simp at hc⟩
  · exact ⟨Or.inl rfl, fun hc => by simp at hc, fun _ => ⟨rfl, rfl⟩⟩

/-- C2 witness: an insert failure after the expense mutation was staged leaves
the demo store byte-for-byte unchanged. -/
theorem C2_witness :
    (recordAtomic FailPoint.atInsertTransaction
        ⟨20, TransactionType.expense, "food", "Cash", none, "2026-02-26", none⟩
        cashAcct none demoStore).2 = demoStore :=
  (C2_atomicity FailPoint.atInsertTransaction
      ⟨20, TransactionType.expense, "food", "Cash", none, "2026-02-26", none⟩
      cashAcct none demoStore).2.1 (by decide)

theorem isSome_of_findAccount {s : Store} {n : String} {a : Account}
    (h : findAccount s n = some a) :
    (s.accounts.find? (fun x => x.name == n)).isSome := by
  unfold findAccount at h
  rw [h]
  rfl

theorem find?_staged_src (l : List Account) (srcA : Account) (tgtA : Option Account)
    (n : String) (hname : srcA.name = n)
    (hfind : (l.find? (fun x => x.name == n)).isSome)
    (hne : ∀ tg, tgtA = some tg → tg.name ≠ n) :
    (stagedAccounts (srcA, tgtA) l).find? (fun x => x.name == n) = some srcA := by
  subst hname
  cases h2 : tgtA with
  | none =>
    show (updateAccountList l srcA).find? (fun x => x.name == srcA.name) = some srcA
    exact find?_update_self l srcA hfind
  | some tg =>
    show (updateAccountList (updateAccountList l srcA) tg).find?
        (fun x => x.name == srcA.name) = some srcA
    rw [find?_update_other _ tg _ (Ne.symm (hne tg h2))]
    exact find?_update_self l srcA hfind

theorem find?_staged_tgt (l : List Account) (srcA tgA : Account) (n : String)
    (hname : tgA.name = n)
    (hfind : (l.find? (fun x => x.name == n)).isSome)
    (hne : n ≠ srcA.name) :
    (stagedAccounts (srcA, some tgA) l).find? (fun x => x.name == n) = some tgA := by
  subst hname
  show (updateAccountList (updateAccountList l srcA) tgA).find?
      (fun x => x.name == tgA.name) = some tgA
  apply find?_update_self
  rw [find?_update_other l srcA tgA.name hne]
  exact hfind

theorem mem_staged_other (l : List Account) (srcA : Account) (tgtA : Option Account)
    (x : Account) (hx : x ∈ l) (hns : x.name ≠ srcA.name)
    (hnt : ∀ tg, tgtA = some tg → x.name ≠ tg.name) :
    x ∈ stagedAccounts (srcA, tgtA) l := by
  cases h2 : tgtA with
  | none =>
    show x ∈ updateAccountList l srcA
    exact mem_update_other _ _ _ hx hns
  | some tg =>
    show x ∈ updateAccountList (updateAccountList l srcA) tg
    exact mem_update_other _ _ _ (mem_update_other _ _ _ hx hns) (hnt tg h2)

def selfTransferPayload : ParsedTransactionPayload :=
  ⟨50, TransactionType.transfer, "transfer", "Cash", some "Cash", "2026-02-26", none⟩

unseal Rat.sub Rat.add Rat.mul Rat.inv in
/-- C1 counterexample: a self-transfer (source and target resolve to the same
account) violates the claim — transferring 50 from Cash to Cash on a balance
of 100 leaves 150, because the target's staged write (computed from the
original balance) overwrites the source's decrement; the claimed source rule
requires 100 − 50. -/
theorem C1_counterexample_self_transfer :
    balanceOf (recordApply FailPoint.noFailure "move money" selfTransferPayload
        ⟨[cashAcct], []⟩).2 "Cash" = some 150 ∧ (150 : ℚ) ≠ 100 - 50 := by decide

/-- C1 (amended): for a resolved transaction committed by the atomic block,
provided a transfer's target is a different account from its source: an
expense moves the source balance by −a (asset) / +a (liability); an income by
+a (asset) / −a (liability); a transfer always moves the source by −a and the
target by +a (asset) / −a (liability); and every account other than the
source and target keeps its exact document.  (When source = target, only the
target rule survives — see the counterexample.) -/
theorem C1_ledger_sign_rules_amended (parsed : ParsedTransactionPayload)
    (src : Account) (tgt : Option Account) (s : Store)
    (hsrc : findAccount s src.name = some src)
    (htgt : ∀ tg, tgt = some tg → findAccount s tg.name = some tg ∧ tg.name ≠ src.name)
    (hout : (recordAtomic FailPoint.noFailure parsed src tgt s).1 =
      RecordOutcome.created) :
    (parsed.type = TransactionType.expense →
      balanceOf (recordAtomic FailPoint.noFailure parsed src tgt s).2 src.name =
        some (if src.type = AccountType.asset then src.balance - parsed.amount
              else src.balance + parsed.amount)) ∧
    (parsed.type = TransactionType.income →
      balanceOf (recordAtomic FailPoint.noFailure parsed src tgt s).2 src.name =
        some (if src.type = AccountType.asset then src.balance + parsed.amount
              else src.balance - parsed.amount)) ∧
    (∀ tg, tgt = some tg → parsed.type = TransactionType.transfer →
      balanceOf (recordAtomic FailPoint.noFailure parsed src tgt s).2 src.name =
        some (src.balance - parsed.amount) ∧
      balanceOf (recordAtomic FailPoint.noFailure parsed src tgt s).2 tg.name =
        some (if tg.type = AccountType.asset then tg.balance + parsed.amount
              else tg.balance - parsed.amount)) ∧
    (∀ x ∈ s.accounts, x.name ≠ src.name →
      (∀ tg, tgt = some tg → x.name ≠ tg.name) →
      x ∈ (recordAtomic FailPoint.noFailure parsed src tgt s).2.accounts) := by
  have hcond : ¬(FailPoint.noFailure = FailPoint.atSaveSource ∨
      (FailPoint.noFailure = FailPoint.atSaveTarget ∧
        (ledgerMutate parsed.type parsed.amount src tgt).2.isSome = true) ∨
      FailPoint.noFailure = FailPoint.atInsertTransaction ∨ parsed.amount < 0) := by
    intro hcc
    rw [recordAtomic_characterization, if_pos hcc] at hout
    simp at hout
  rw [recordAtomic_characterization, if_neg hcond]
  have hneOf : ∀ tg, tgt = some tg → tg.name ≠ src.name := fun tg h2 => (htgt tg h2).2
  refine ⟨?_, ?_, ?_, ?_⟩
  · intro hty
    rw [hty]
    simp only [balanceOf, findAccount, ledgerMutate]
    refine congrArg (Option.map (fun x => x.balance))
      (find?_staged_src s.accounts _ tgt src.name ?_ ?_ ?_)
    · rfl
    · exact isSome_of_findAccount hsrc
    · exact hneOf
  · intro hty
    rw [hty]
    simp only [balanceOf, findAccount, ledgerMutate]
    refine congrArg (Option.map (fun x => x.balance))
      (find?_staged_src s.accounts _ tgt src.name ?_ ?_ ?_)
    · rfl
    · exact isSome_of_findAccount hsrc
    · exact hneOf
  · intro tg h2 hty
    subst h2
    rw [hty]
    by_cases hct : tg.type = AccountType.liability
    · have hcta : ¬ tg.type = AccountType.asset := by rw [hct]; simp
      simp only [balanceOf, findAccount, ledgerMutate, if_pos hct, if_neg hcta]
      constructor
      · refine congrArg (Option.map (fun x => x.balance))
          (find?_staged_src s.accounts _ _ src.name ?_ ?_ ?_)
        · rfl
        · exact isSome_of_findAccount hsrc
        · intro tg' h2'
          rw [← Option.some.inj h2']
          exact (htgt tg rfl).2
      · refine congrArg (Option.map (fun x => x.balance))
          (find?_staged_tgt s.accounts _ _ tg.name ?_ ?_ ?_)
        · rfl
        · exact isSome_of_findAccount (htgt tg rfl).1
        · exact (htgt tg rfl).2
    · have hcta : tg.type = AccountType.asset := by
        cases hh : tg.type
        · rfl
        · exact absurd hh hct
      simp only [balanceOf, findAccount, ledgerMutate, if_neg hct, if_pos hcta]
      constructor
      · refine congrArg (Option.map (fun x => x.balance))
          (find?_staged_src s.accounts _ _ src.name ?_ ?_ ?_)
        · rfl
        · exact isSome_of_findAccount hsrc
        · intro tg' h2'
          rw [← Option.some.inj h2']
          exact (htgt tg rfl).2
      · refine congrArg (Option.map (fun x => x.balance))
          (find?_staged_tgt s.accounts _ _ tg.name ?_ ?_ ?_)
        · rfl
        · exact isSome_of_findAccount (htgt tg rfl).1
        · exact (htgt tg rfl).2
  · intro x hx hxs hxt
    cases hpt : parsed.type with
    | expense =>
      simp only [ledgerMutate]
      refine mem_staged_other s.accounts _ tgt x hx ?_ ?_
      · exact hxs
      · exact hxt
    | income =>
      simp only [ledgerMutate]
      refine mem_staged_other s.accounts _ tgt x hx ?_ ?_
      · exact hxs
      · exact hxt
    | transfer =>
      cases htg : tgt with
      | none =>
        simp only [ledgerMutate]
        refine mem_staged_other s.accounts _ none x hx ?_ ?_
        · exact hxs
        · intro tg h2
          cases h2
      | some tg0 =>
        have hxn := hxt tg0 htg
        by_cases hct : tg0.type = AccountType.liability
        · simp only [ledgerMutate, if_pos hct]
          refine mem_staged_other s.accounts _ _ x hx ?_ ?_
          · exact hxs
          · intro tg' h2'
            rw [← Option.some.inj h2']
            exact hxn
        · simp only [ledgerMutate, if_neg hct]
          refine mem_staged_other s.accounts _ _ x hx ?_ ?_
          · exact hxs
          · intro tg' h2'
            rw [← Option.some.inj h2']
            exact hxn

unseal Rat.sub Rat.add Rat.mul Rat.inv in
/-- C1 witness: the §8 scenario — a transfer of 50 from DebitCard (asset,
300) to CreditCard (liability, 200) leaves DebitCard at 250 and CreditCard at
150. -/
theorem C1_witness :
    balanceOf (recordAtomic FailPoint.noFailure
        ⟨50, TransactionType.transfer, "repayment", "DebitCard", some "CreditCard",
         "2026-02-26", none⟩ debitAcct (some creditAcct) demoStore).2 "DebitCard" =
      some 250 ∧
    balanceOf (recordAtomic FailPoint.noFailure
        ⟨50, TransactionType.transfer, "repayment", "DebitCard", some "CreditCard",
         "2026-02-26", none⟩ debitAcct (some creditAcct) demoStore).2 "CreditCard" =
      some 150 := by
  have h := (C1_ledger_sign_rules_amended
      ⟨50, TransactionType.transfer, "repayment", "DebitCard", some "CreditCard",
       "2026-02-26", none⟩ debitAcct (some creditAcct) demoStore (by decide)
      (by
        intro tg hteq
        obtain rfl := (Option.some.inj hteq)
        exact ⟨by decide, by decide⟩)
      (by decide)).2.2.1 creditAcct rfl rfl
  exact ⟨h.1, h.2⟩

theorem map_balance_staged (l : List Account) (srcA : Account)
    (tgtA : Option Account) (n : String) (b : ℚ) (hname : srcA.name = n)
    (hbal : srcA.balance = b)
    (hfind : (l.find? (fun x => x.name == n)).isSome)
    (hne : ∀ tg, tgtA = some tg → tg.name ≠ n) :
    Option.map (fun x => x.balance)
      ((stagedAccounts (srcA, tgtA) l).find? (fun x => x.name == n)) = some b := by
  rw [find?_staged_src l srcA tgtA n hname hfind hne]
  rw [Option.map_some', hbal]

/-- C8: applying an expense of `a` and then an income of `a` to the same
account through the atomic block returns its balance to the original value,
for asset accounts (−a then +a) and liability accounts (+a then −a) alike. -/
theorem C8_expense_income_round_trip (p₁ p₂ : ParsedTransactionPayload)
    (acc : Account) (s : Store)
    (ht₁ : p₁.type = TransactionType.expense)
    (ht₂ : p₂.type = TransactionType.income)
    (hamt : p₂.amount = p₁.amount) (ha : 0 ≤ p₁.amount)
    (hfind : findAccount s acc.name = some acc) :
    ∀ acc₁, findAccount (recordAtomic FailPoint.noFailure p₁ acc none s).2 acc.name
        = some acc₁ →
      balanceOf (recordAtomic FailPoint.noFailure p₂ acc₁ none
          (recordAtomic FailPoint.noFailure p₁ acc none s).2).2 acc.name =
        some acc.balance := by
  intro acc₁ h₁
  have ha₂ : 0 ≤ p₂.amount := by rw [hamt]; exact ha
  have hnc₁ : ¬(FailPoint.noFailure = FailPoint.atSaveSource ∨
      (FailPoint.noFailure = FailPoint.atSaveTarget ∧
        (ledgerMutate p₁.type p₁.amount acc none).2.isSome = true) ∨
      FailPoint.noFailure = FailPoint.atInsertTransaction ∨ p₁.amount < 0) := by
    rintro (h | ⟨h, -⟩ | h | h)
    · simp at h
    · simp at h
    · simp at h
    · exact absurd h (not_lt.mpr ha)
  rw [recordAtomic_characterization FailPoint.noFailure p₁ acc none s,
    if_neg hnc₁] at h₁
  rw [recordAtomic_characterization FailPoint.noFailure p₁ acc none s,
    if_neg hnc₁]
  rw [ht₁] at h₁
  rw [ht₁]
  have h₂ : findAccount
      ⟨stagedAccounts (ledgerMutate TransactionType.expense p₁.amount acc none)
          s.accounts,
        s.transactions ++ [mkTransactionRecord p₁ acc]⟩ acc.name =
      some { acc with balance := if acc.type = AccountType.asset
              then acc.balance - p₁.amount else acc.balance + p₁.amount } := by
    simp only [findAccount, ledgerMutate]
    refine find?_staged_src s.accounts _ none acc.name ?_ ?_ ?_
    · rfl
    · exact isSome_of_findAccount hfind
    · intro tg h2
      cases h2
  have hacc₁ : { acc with balance := if acc.type = AccountType.asset
      then acc.balance - p₁.amount else acc.balance + p₁.amount } = acc₁ :=
    Option.some.inj (h₂.symm.trans h₁)
  subst hacc₁
  have hnc₂ : ¬(FailPoint.noFailure = FailPoint.atSaveSource ∨
      (FailPoint.noFailure = FailPoint.atSaveTarget ∧
        (ledgerMutate p₂.type p₂.amount
          { acc with balance := if acc.type = AccountType.asset
              then acc.balance - p₁.amount else acc.balance + p₁.amount }
          none).2.isSome = true) ∨
      FailPoint.noFailure = FailPoint.atInsertTransaction ∨ p₂.amount < 0) := by
    rintro (h | ⟨h, -⟩ | h | h)
    · simp at h
    · simp at h
    · simp at h
    · exact absurd h (not_lt.mpr ha₂)
  rw [recordAtomic_characterization, if_neg hnc₂, ht₂]
  simp only [balanceOf, findAccount, ledgerMutate]
  refine map_balance_staged _ _ none acc.name _ ?_ ?_ ?_ ?_
  · rfl
  · show (if acc.type = AccountType.asset
        then (if acc.type = AccountType.asset
              then acc.balance - p₁.amount else acc.balance + p₁.amount) + p₂.amount
        else (if acc.type = AccountType.asset
              then acc.balance - p₁.amount else acc.balance + p₁.amount) - p₂.amount)
      = acc.balance
    by_cases hat : acc.type = AccountType.asset
    · rw [if_pos hat, if_pos hat, hamt]
      ring
    · rw [if_neg hat, if_neg hat, hamt]
      ring
  · exact isSome_of_findAccount h₂
  · intro tg h2
    cases h2

unseal Rat.sub Rat.add Rat.mul Rat.inv in
/-- C8 witness: the round trip at concrete inputs — expense 30 then income 30
returns Cash (asset) to 100 and CreditCard (liability) to 200. -/
theorem C8_witness :
    balanceOf (recordAtomic FailPoint.noFailure
        ⟨30, TransactionType.income, "refund", "Cash", none, "2026-02-26", none⟩
        ⟨"Cash", AccountType.asset, 70, AccountCurrency.CAD, AccountCurrency.CAD, none⟩
        none
        (recordAtomic FailPoint.noFailure
          ⟨30, TransactionType.expense, "food", "Cash", none, "2026-02-26", none⟩
          cashAcct none ⟨[cashAcct], []⟩).2).2 "Cash" = some 100 ∧
    balanceOf (recordAtomic FailPoint.noFailure
        ⟨30, TransactionType.income, "refund", "CreditCard", none, "2026-02-26", none⟩
        ⟨"CreditCard", AccountType.liability, 230, AccountCurrency.CAD,
         AccountCurrency.CAD, some 15⟩
        none
        (recordAtomic FailPoint.noFailure
          ⟨30, TransactionType.expense, "shopping", "CreditCard", none, "2026-02-26",
           none⟩
          creditAcct none ⟨[creditAcct], []⟩).2).2 "CreditCard" = some 200 :=
  ⟨C8_expense_income_round_trip
      ⟨30, TransactionType.expense, "food", "Cash", none, "2026-02-26", none⟩
      ⟨30, TransactionType.income, "refund", "Cash", none, "2026-02-26", none⟩
      cashAcct ⟨[cashAcct], []⟩ rfl rfl rfl (by decide) (by decide)
      ⟨"Cash", AccountType.asset, 70, AccountCurrency.CAD, AccountCurrency.CAD, none⟩
      (by decide),
   C8_expense_income_round_trip
      ⟨30, TransactionType.expense, "shopping", "CreditCard", none, "2026-02-26", none⟩
      ⟨30, TransactionType.income, "refund", "CreditCard", none, "2026-02-26", none⟩
      creditAcct ⟨[creditAcct], []⟩ rfl rfl rfl (by decide) (by decide)
      ⟨"CreditCard", AccountType.liability, 230, AccountCurrency.CAD,
       AccountCurrency.CAD, some 15⟩
      (by decide)⟩

theorem code_claim_cny_fold (l : List Account) (r : ℚ) (hr : r ≠ 0) :
    ∀ init : ℚ,
      (l.foldl (fun sum acc =>
        sum + (if acc.type = AccountType.asset
               then (if acc.currency = AccountCurrency.CAD then acc.balance
                     else acc.balance / r)
               else -(if acc.currency = AccountCurrency.CAD then acc.balance
                      else acc.balance / r))) init) * r =
      l.foldl (fun sum acc =>
        sum + (if acc.type = AccountType.asset
               then convertAmount acc.balance acc.currency AccountCurrency.CNY r
               else -convertAmount acc.balance acc.currency AccountCurrency.CNY r))
        (init * r) := by
  induction l with
  | nil => intro init; rfl
  | cons x t ih =>
    intro init
    simp only [List.foldl_cons]
    rw [ih, add_mul]
    have hconv : (if x.currency = AccountCurrency.CAD then x.balance
        else x.balance / r) * r =
        convertAmount x.balance x.currency AccountCurrency.CNY r := by
      cases hc : x.currency
      · simp [convertAmount]
      · simp [convertAmount, div_mul_cancel₀ _ hr]
    by_cases ht : x.type = AccountType.asset
    · rw [if_pos ht, if_pos ht, hconv]
    · rw [if_neg ht, if_neg ht, neg_mul, hconv]

/-- C9: the Valuation Aggregator is a pure function of the account list and
the rate (it writes nothing back); each account contributes its native balance
converted only when its currency differs from the display currency, positively
for an asset and negatively for a liability; and for the same positive rate
the CNY total equals the CAD total times the rate. -/
theorem C9_valuation_aggregation (accounts : List Account) (r : ℚ) (hr : 0 < r) :
    totalBalance accounts AccountCurrency.CNY r =
      totalBalance accounts AccountCurrency.CAD r * r ∧
    ∀ d, totalBalance accounts d r =
      accounts.foldl
        (fun sum acc =>
          sum + (if acc.type = AccountType.asset
                 then convertAmount acc.balance acc.currency d r
                 else -convertAmount acc.balance acc.currency d r)) 0 := by
  have hrne : r ≠ 0 := ne_of_gt hr
  constructor
  · simp [totalBalance]
  · intro d
    cases d with
    | CAD =>
      simp only [totalBalance]
      rw [if_true]
      refine foldl_congr_fn _ _ accounts 0 ?_
      intro sum x
      have hconv : (if x.currency = AccountCurrency.CAD then x.balance
          else x.balance / r) =
          convertAmount x.balance x.currency AccountCurrency.CAD r := by
        cases hc : x.currency
        · simp [convertAmount]
        · simp [convertAmount]
      rw [hconv]
    | CNY =>
      simp only [totalBalance]
      rw [if_neg (by simp)]
      have hfold := code_claim_cny_fold accounts r hrne 0
      rw [zero_mul] at hfold
      exact hfold

/-- C9 witness: the aggregation theorem at a concrete mixed-currency account
list and the fallback rate 5. -/
theorem C9_witness :
    totalBalance [cashAcct, wechatAcct, creditAcct] AccountCurrency.CNY 5 =
      totalBalance [cashAcct, wechatAcct, creditAcct] AccountCurrency.CAD 5 * 5 ∧
    totalBalance [cashAcct, wechatAcct, creditAcct] AccountCurrency.CAD 5 =
      [cashAcct, wechatAcct, creditAcct].foldl
        (fun sum acc =>
          sum + (if acc.type = AccountType.asset
                 then convertAmount acc.balance acc.currency AccountCurrency.CAD 5
                 else -convertAmount acc.balance acc.currency AccountCurrency.CAD 5))
        0 :=
  ⟨(C9_valuation_aggregation [cashAcct, wechatAcct, creditAcct] 5 (by decide)).1,
   (C9_valuation_aggregation [cashAcct, wechatAcct, creditAcct] 5 (by decide)).2
     AccountCurrency.CAD⟩

def negativeAmountPayload : ParsedTransactionPayload :=
  ⟨-50, TransactionType.expense, "food", "cash", none, "2026-02-26", none⟩

unseal Rat.sub Rat.add Rat.mul Rat.inv in
/-- C4 (code behavior at the failing input): the handler performs no amount
validation.  With a classified amount of −50 the balance mutation is staged
(the asset source's balance is computed as 100 − (−50) = 150) and the request
only fails when the `Transaction` insert hits the schema `min: 0` check —
surfacing a 500 internal error after the session aborts — rather than an
InvalidAmount validation error detected before any mutation begins. -/
theorem C4_no_invalid_amount_validation :
    (recordApply FailPoint.noFailure "spent -50" negativeAmountPayload
        ⟨[cashAcct], []⟩).1 = RecordOutcome.serverError ∧
    (recordApply FailPoint.noFailure "spent -50" negativeAmountPayload
        ⟨[cashAcct], []⟩).2 = ⟨[cashAcct], []⟩ ∧
    (ledgerMutate TransactionType.expense (-50) cashAcct none).1.balance = 150 := by
  decide

/-- C10: POST /api/accounts always creates a liability account — the created
document's `type` is the hard-coded `"liability"`, and the caller-supplied
`type` field is ignored by the handler (changing it changes nothing). -/
theorem C10_create_account_forces_liability (body : CreateAccountBody) (s : Store)
    (acc : Account) (s₂ : Store)
    (h : createAccountHandler body s = (CreateOutcome.created acc, s₂)) :
    acc.type = AccountType.liability ∧
    ∀ t, createAccountHandler { body with type := t } s =
      createAccountHandler body s := by
  constructor
  · cases hn : body.name with
    | none =>
      simp [createAccountHandler, hn] at h
    | some n0 =>
      simp only [createAccountHandler, hn] at h
      by_cases h1 : jsTrim n0 = ""
      · rw [if_pos h1] at h
        simp at h
      · rw [if_neg h1] at h
        by_cases h2 : (findAccount s (jsTrim n0)).isSome = true
        · rw [if_pos h2] at h
          simp at h
        · rw [if_neg h2] at h
          simp only [Prod.mk.injEq] at h
          obtain ⟨hq, -⟩ := h
          injection hq with hacc
          rw [← hacc]
  · intro t
    rfl

/-- C10 witness: a body that explicitly asks for `type = "asset"` still
produces a liability account, and supplying any `type` value leaves the
handler's result unchanged. -/
theorem C10_witness :
    (⟨"BMO", AccountType.liability, 100, AccountCurrency.CAD, AccountCurrency.CAD,
        none⟩ : Account).type = AccountType.liability ∧
    createAccountHandler
        ⟨some "BMO", some 100, none, none, none, some "liability"⟩ ⟨[], []⟩ =
      createAccountHandler
        ⟨some "BMO", some 100, none, none, none, some "asset"⟩ ⟨[], []⟩ :=
  ⟨(C10_create_account_forces_liability
      ⟨some "BMO", some 100, none, none, none, some "asset"⟩ ⟨[], []⟩
      ⟨"BMO", AccountType.liability, 100, AccountCurrency.CAD, AccountCurrency.CAD,
       none⟩
      ⟨[⟨"BMO", AccountType.liability, 100, AccountCurrency.CAD, AccountCurrency.CAD,
         none⟩], []⟩
      (by decide)).1,
   (C10_create_account_forces_liability
      ⟨some "BMO", some 100, none, none, none, some "asset"⟩ ⟨[], []⟩
      ⟨"BMO", AccountType.liability, 100, AccountCurrency.CAD, AccountCurrency.CAD,
       none⟩
      ⟨[⟨"BMO", AccountType.liability, 100, AccountCurrency.CAD, AccountCurrency.CAD,
         none⟩], []⟩
      (by decide)).2 (some "liability")⟩

end SaveWise
